import Mathlib

/-!
Verification of the Smart_Confidant repository (src/app.py, src/deploy.py)
against its natural-language specification.

The Python code is shallowly embedded: module-level mutable state is passed
explicitly, effectful calls into third-party libraries (transformers,
huggingface_hub, subprocess) are represented by oracle records whose outcomes
are `Except` values, and a generator's `yield`s become a list of strings.
-/

namespace SmartConfidant

/-! ### Debug log buffer (app.py, `log_debug`)

`debug_logs` is a module-level list of strings; `log_debug` appends a
timestamped entry and pops the oldest entry when the buffer exceeds
`MAX_LOG_LINES`.  The global list becomes an explicit argument/result. -/

/-- app.py line 39: `MAX_LOG_LINES = 100`. -/
def MAX_LOG_LINES : Nat := 100

/-- app.py line 48: `log_entry = f"[{timestamp}] [{level}] {message}"`. -/
def fmtEntry (timestamp level message : String) : String :=
  "[" ++ timestamp ++ "] [" ++ level ++ "] " ++ message

/-- app.py lines 45-54, `log_debug`: append the formatted entry, then
`if len(debug_logs) > MAX_LOG_LINES: debug_logs.pop(0)`.  The timestamp comes
from the clock, so it is a parameter here.  Returns the new buffer. -/
def log_debug (logs : List String) (timestamp level message : String) :
    List String :=
  if (logs ++ [fmtEntry timestamp level message]).length > MAX_LOG_LINES then
    (logs ++ [fmtEntry timestamp level message]).tail
  else
    logs ++ [fmtEntry timestamp level message]

/-- A sequence of `log_debug` calls, threading the buffer through. -/
def applyLogs (logs : List String) (msgs : List (String × String × String)) :
    List String :=
  msgs.foldl (fun acc m => log_debug acc m.1 m.2.1 m.2.2) logs

lemma log_debug_eq (logs : List String) (ts lv m : String)
    (hle : logs.length ≤ MAX_LOG_LINES) :
    log_debug logs ts lv m =
      (logs ++ [fmtEntry ts lv m]).drop ((logs.length + 1) - MAX_LOG_LINES) := by
  unfold log_debug
  by_cases h : logs.length = MAX_LOG_LINES
  · have hgt : (logs ++ [fmtEntry ts lv m]).length > MAX_LOG_LINES := by
      simp [h]
    have hd : (logs.length + 1) - MAX_LOG_LINES = 1 := by omega
    rw [if_pos hgt, hd, List.drop_one]
  · have hng : ¬ (logs ++ [fmtEntry ts lv m]).length > MAX_LOG_LINES := by
      simp
      omega
    have hd : (logs.length + 1) - MAX_LOG_LINES = 0 := by omega
    rw [if_neg hng, hd, List.drop_zero]

lemma applyLogs_characterization (msgs : List (String × String × String)) :
    ∀ logs : List String, logs.length ≤ MAX_LOG_LINES →
      applyLogs logs msgs =
        (logs ++ msgs.map (fun x => fmtEntry x.1 x.2.1 x.2.2)).drop
          ((logs.length + msgs.length) - MAX_LOG_LINES) := by
  induction msgs with
  | nil =>
    intro logs hle
    have hd : (logs.length + ([] : List (String × String × String)).length)
        - MAX_LOG_LINES = 0 := by
      simp
      omega
    rw [hd]
    simp [applyLogs]
  | cons m rest ih =>
    intro logs hle
    have hstep : applyLogs logs (m :: rest) =
        applyLogs (log_debug logs m.1 m.2.1 m.2.2) rest := rfl
    rw [hstep, log_debug_eq logs _ _ _ hle]
    set e := fmtEntry m.1 m.2.1 m.2.2 with he
    set rest' := rest.map (fun x => fmtEntry x.1 x.2.1 x.2.2) with hr
    set d := (logs.length + 1) - MAX_LOG_LINES with hd
    have hrlen : rest'.length = rest.length := by simp [hr]
    have hdle : d ≤ (logs ++ [e]).length := by
      simp [hd]
    have hlen : ((logs ++ [e]).drop d).length ≤ MAX_LOG_LINES := by
      simp [hd]
      omega
    rw [ih _ hlen]
    have hlen2 : ((logs ++ [e]).drop d).length = logs.length + 1 - d := by
      simp
    rw [hlen2]
    have hcomm : ((logs ++ [e]).drop d) ++ rest' = ((logs ++ [e]) ++ rest').drop d :=
      (List.drop_append_of_le_length hdle).symm
    rw [hcomm, List.drop_drop]
    have hassoc : (logs ++ [e]) ++ rest' = logs ++ ((m :: rest).map
        (fun x => fmtEntry x.1 x.2.1 x.2.2)) := by
      simp [he, hr]
    rw [hassoc]
    congr 1
    simp only [List.length_cons]
    omega

/-- C1: starting from the empty buffer, after any sequence of `log_debug`
calls the buffer has at most `MAX_LOG_LINES = 100` entries, and it is exactly
the suffix of the most recent entries of the full formatted log stream, in
insertion order (FIFO trimming: the oldest entries are the ones dropped). -/
theorem log_buffer_bounded_fifo (msgs : List (String × String × String)) :
    (applyLogs [] msgs).length ≤ MAX_LOG_LINES ∧
      applyLogs [] msgs =
        (msgs.map (fun x => fmtEntry x.1 x.2.1 x.2.2)).drop
          (msgs.length - MAX_LOG_LINES) := by
  have h := applyLogs_characterization msgs [] (by simp)
  simp only [List.nil_append, List.length_nil, Nat.zero_add] at h
  refine ⟨?_, h⟩
  rw [h]
  simp
  omega

/-! ### Python string primitives

`str.endswith` and `str.replace` as used by `respond` (app.py lines 227-228).
`replaceAux` follows CPython's algorithm: scan left to right, on a match emit
the replacement and resume after the matched text.  The fuel argument is
instantiated with the length of the scanned list; every step consumes at
least one character, so that much fuel is always enough. -/

/-- Python's `s.endswith(sfx)`: suffix test. -/
def pyEndsWith (s sfx : String) : Bool :=
  List.isSuffixOf sfx.toList s.toList

/-- One left-to-right replace-all pass over a character list. -/
def replaceAux (pat rep : List Char) : Nat → List Char → List Char
  | _, [] => []
  | 0, s => s
  | fuel + 1, c :: rest =>
    if List.isPrefixOf pat (c :: rest) then
      rep ++ replaceAux pat rep fuel (rest.drop (pat.length - 1))
    else
      c :: replaceAux pat rep fuel rest

/-- Python's `s.replace(old, new)`: replace every occurrence of `old`. -/
def pyReplace (s old new : String) : String :=
  (replaceAux old.toList new.toList s.toList.length s.toList).asString

/-- app.py line 227: `is_local = selected_model.endswith("(local)")`. -/
def is_local (selected_model : String) : Bool :=
  pyEndsWith selected_model "(local)"

/-- app.py line 228:
`model_name = selected_model.replace(" (local)", "").replace(" (api)", "")`. -/
def model_name (selected_model : String) : String :=
  pyReplace (pyReplace selected_model " (local)" "") " (api)" ""

lemma replaceAux_nil (pat rep : List Char) (f : Nat) :
    replaceAux pat rep f [] = [] := by
  cases f <;> rfl

lemma asString_toList (s : String) : s.toList.asString = s := rfl

lemma toList_append (s t : String) : (s ++ t).toList = s.toList ++ t.toList := by
  simp [String.toList]

/-- The space character, via its code point. -/
def spaceChar : Char := Char.ofNat 32

lemma isInfixTail {pat rest : List Char} {c : Char}
    (h : List.IsInfix pat (c :: rest)) (hp : ¬ List.IsPrefix pat (c :: rest)) :
    List.IsInfix pat rest := by
  obtain ⟨s, t, hst⟩ := h
  cases s with
  | nil => exact absurd ⟨t, by simpa using hst⟩ hp
  | cons a s2 =>
    simp only [List.cons_append, List.cons.injEq] at hst
    exact ⟨s2, t, hst.2⟩

lemma isInfixExtend {pat l : List Char} (c : Char) (h : List.IsInfix pat l) :
    List.IsInfix pat (c :: l) := by
  obtain ⟨s, t, hst⟩ := h
  exact ⟨c :: s, t, by simp [List.cons_append, hst]⟩

lemma isInfixAppend {pat l₁ : List Char} (l₂ : List Char)
    (h : List.IsInfix pat l₁) : List.IsInfix pat (l₁ ++ l₂) := by
  obtain ⟨s, t, hst⟩ := h
  refine ⟨s, t ++ l₂, ?_⟩
  rw [← hst]
  simp [List.append_assoc]

lemma notNilOfInfix {pat : List Char} (hne : pat ≠ [])
    (h : List.IsInfix pat []) : False := by
  obtain ⟨s, t, hst⟩ := h
  have := List.append_eq_nil.mp hst
  have := List.append_eq_nil.mp this.1
  exact hne this.2

lemma replaceAux_no_occurrence (pat rep : List Char) :
    ∀ (f : Nat) (s : List Char), ¬ List.IsInfix pat s →
      replaceAux pat rep f s = s := by
  intro f
  induction f with
  | zero =>
    intro s _
    cases s <;> rfl
  | succ f ih =>
    intro s hni
    cases s with
    | nil => rfl
    | cons c rest =>
      have hp : ¬ List.isPrefixOf pat (c :: rest) = true := by
        intro hpre
        exact hni (List.isPrefixOf_iff_prefix.mp hpre).isInfix
      rw [replaceAux, if_neg hp, ih rest (fun h => hni (isInfixExtend c h))]

lemma replaceAux_zero (pat rep : List Char) (s : List Char) :
    replaceAux pat rep 0 s = s := by
  cases s <;> rfl

lemma replaceAux_length_le (pat : List Char) :
    ∀ (f : Nat) (s : List Char), (replaceAux pat [] f s).length ≤ s.length := by
  intro f
  induction f with
  | zero =>
    intro s
    simp [replaceAux_zero]
  | succ f ih =>
    intro s
    cases s with
    | nil => simp [replaceAux_nil]
    | cons c rest =>
      by_cases hp : List.isPrefixOf pat (c :: rest) = true
      · rw [replaceAux, if_pos hp]
        have h1 := ih (rest.drop (pat.length - 1))
        have h2 : (rest.drop (pat.length - 1)).length ≤ rest.length := by simp
        simp only [List.nil_append, List.length_cons]
        omega
      · rw [replaceAux, if_neg hp]
        simp only [List.length_cons]
        exact Nat.succ_le_succ (ih rest)

lemma replaceAux_removes (pat : List Char) (hne : pat ≠ []) :
    ∀ (f : Nat) (s : List Char), s.length ≤ f → List.IsInfix pat s →
      (replaceAux pat [] f s).length ≤ s.length - pat.length := by
  have hpat1 : 1 ≤ pat.length := by
    cases pat with
    | nil => exact absurd rfl hne
    | cons a l => simp
  intro f
  induction f with
  | zero =>
    intro s hf hinf
    have hs : s = [] := List.eq_nil_of_length_eq_zero (Nat.le_zero.mp hf)
    rw [hs] at hinf
    exact absurd hinf (fun h => notNilOfInfix hne h)
  | succ f ih =>
    intro s hf hinf
    cases s with
    | nil => exact absurd hinf (fun h => notNilOfInfix hne h)
    | cons c rest =>
      have hf' : rest.length ≤ f := by
        simp only [List.length_cons] at hf
        omega
      by_cases hp : List.isPrefixOf pat (c :: rest) = true
      · rw [replaceAux, if_pos hp]
        have h1 := replaceAux_length_le pat f (rest.drop (pat.length - 1))
        have hplen : pat.length ≤ rest.length + 1 := by
          have := (List.isPrefixOf_iff_prefix.mp hp).length_le
          simpa using this
        have h2 : (rest.drop (pat.length - 1)).length = rest.length - (pat.length - 1) := by
          simp
        simp only [List.nil_append, List.length_cons]
        omega
      · rw [replaceAux, if_neg hp]
        have hp' : ¬ List.IsPrefix pat (c :: rest) :=
          fun h => hp (List.isPrefixOf_iff_prefix.mpr h)
        have hrest : List.IsInfix pat rest := isInfixTail hinf hp'
        have h1 := ih rest hf' hrest
        have h2 := hrest.length_le
        simp only [List.length_cons]
        omega

lemma replaceAux_removes_two (pat : List Char) (hne : pat ≠ []) :
    ∀ (s : List Char) (f : Nat), s.length + pat.length ≤ f →
      List.IsInfix pat s →
      (replaceAux pat [] f (s ++ pat)).length ≤ s.length - pat.length := by
  have hpat1 : 1 ≤ pat.length := by
    cases pat with
    | nil => exact absurd rfl hne
    | cons a l => simp
  intro s
  induction s with
  | nil =>
    intro f _ hinf
    exact absurd hinf (fun h => notNilOfInfix hne h)
  | cons c rest ih =>
    intro f hf hinf
    cases f with
    | zero =>
      simp only [List.length_cons] at hf
      omega
    | succ f =>
      have hcons : (c :: rest) ++ pat = c :: (rest ++ pat) := by simp
      rw [hcons]
      have hplen : pat.length ≤ rest.length + 1 := by
        have := hinf.length_le
        simpa using this
      by_cases hp : List.isPrefixOf pat (c :: (rest ++ pat)) = true
      · rw [replaceAux, if_pos hp]
        have hdropeq : (rest ++ pat).drop (pat.length - 1) =
            rest.drop (pat.length - 1) ++ pat :=
          List.drop_append_of_le_length (by omega)
        rw [hdropeq]
        have hinf2 : List.IsInfix pat (rest.drop (pat.length - 1) ++ pat) :=
          ⟨rest.drop (pat.length - 1), [], by simp⟩
        have hfuel : (rest.drop (pat.length - 1) ++ pat).length ≤ f := by
          simp only [List.length_append, List.length_drop]
          simp only [List.length_cons] at hf
          omega
        have h1 := replaceAux_removes pat hne f _ hfuel hinf2
        have h2 : (rest.drop (pat.length - 1) ++ pat).length =
            (rest.length - (pat.length - 1)) + pat.length := by
          simp
        simp only [List.nil_append, List.length_cons]
        omega
      · rw [replaceAux, if_neg hp]
        have hp' : ¬ List.IsPrefix pat (c :: rest) := by
          intro h
          apply hp
          apply List.isPrefixOf_iff_prefix.mpr
          have h2 : List.IsPrefix pat ((c :: rest) ++ pat) :=
            h.trans (List.prefix_append _ _)
          simpa using h2
        have hrest : List.IsInfix pat rest := isInfixTail hinf hp'
        have h1 := ih f (by simp only [List.length_cons] at hf; omega) hrest
        have h2 := hrest.length_le
        simp only [List.length_cons]
        omega

lemma replaceAux_passthrough (pat rep ps : List Char)
    (hpat : pat = spaceChar :: ps) (hsp : spaceChar ∉ ps) :
    ∀ (name : List Char) (f : Nat) (rear : List Char),
      name.length + rear.length ≤ f →
      ¬ List.IsInfix pat name →
      (rear = [] ∨ ∃ ts, rear = spaceChar :: ts) →
      replaceAux pat rep f (name ++ rear) =
        name ++ replaceAux pat rep (f - name.length) rear := by
  intro name
  induction name with
  | nil =>
    intro f rear _ _ _
    simp
  | cons c rest ih =>
    intro f rear hf hni hrear
    cases f with
    | zero =>
      simp only [List.length_cons] at hf
      omega
    | succ f =>
      have hcons : (c :: rest) ++ rear = c :: (rest ++ rear) := by simp
      rw [hcons]
      have hp : ¬ List.isPrefixOf pat (c :: (rest ++ rear)) = true := by
        intro hpre
        have hpre' : List.IsPrefix pat ((c :: rest) ++ rear) := by
          have := List.isPrefixOf_iff_prefix.mp hpre
          simpa using this
        by_cases hlen : pat.length ≤ (c :: rest).length
        · have hp2 : List.IsPrefix pat (c :: rest) :=
            List.prefix_of_prefix_length_le hpre' (List.prefix_append _ _) hlen
          exact hni hp2.isInfix
        · have h2 : List.IsPrefix (c :: rest) pat :=
            List.prefix_of_prefix_length_le (List.prefix_append _ _) hpre' (by omega)
          obtain ⟨d, hd⟩ := h2
          obtain ⟨t2, ht2⟩ := hpre'
          have hdt : d ++ t2 = rear := by
            have h3 : ((c :: rest) ++ d) ++ t2 = (c :: rest) ++ rear := by
              rw [hd]; exact ht2
            rw [List.append_assoc] at h3
            exact List.append_cancel_left h3
          have hdne : d ≠ [] := by
            intro hdeq
            rw [hdeq, List.append_nil] at hd
            have := congrArg List.length hd
            simp only [List.length_cons] at this hlen
            omega
          rcases hrear with htl | ⟨ts, hts⟩
          · rw [htl] at hdt
            exact hdne (List.append_eq_nil.mp hdt).1
          · cases d with
            | nil => exact hdne rfl
            | cons a d2 =>
              rw [hts] at hdt
              simp only [List.cons_append, List.cons.injEq] at hdt
              have ha : a = spaceChar := hdt.1
              rw [hpat] at hd
              simp only [List.cons_append, List.cons.injEq] at hd
              apply hsp
              rw [← hd.2, ha]
              exact List.mem_append_right _ (List.mem_cons_self _ _)
      rw [replaceAux, if_neg hp]
      have hni' : ¬ List.IsInfix pat rest := fun h => hni (isInfixExtend c h)
      have hf' : rest.length + rear.length ≤ f := by
        simp only [List.length_cons] at hf
        omega
      rw [ih f rear hf' hni' hrear]
      simp only [List.length_cons, List.cons_append]
      have hidx : f + 1 - (rest.length + 1) = f - rest.length := by omega
      rw [hidx]

lemma toList_asString (l : List Char) : l.asString.toList = l := rfl

lemma pyReplace_no_occurrence (s old new : String)
    (h : ¬ List.IsInfix old.toList s.toList) : pyReplace s old new = s := by
  show (replaceAux old.toList new.toList s.toList.length s.toList).asString = s
  rw [replaceAux_no_occurrence old.toList new.toList _ _ h, asString_toList]

lemma pyReplace_strip_local (name : String)
    (hni : ¬ List.IsInfix " (local)".toList name.toList) :
    pyReplace (name ++ " (local)") " (local)" "" = name := by
  show (replaceAux " (local)".toList "".toList (name ++ " (local)").toList.length
      (name ++ " (local)").toList).asString = name
  rw [toList_append]
  rw [replaceAux_passthrough " (local)".toList "".toList "(local)".toList
    (by decide) (by decide) name.toList _ " (local)".toList (by simp) hni
    (Or.inr ⟨"(local)".toList, by decide⟩)]
  have hidx : (name.toList ++ " (local)".toList).length - name.toList.length =
      " (local)".toList.length := by simp
  rw [hidx]
  have hcomp : replaceAux " (local)".toList "".toList " (local)".toList.length
      " (local)".toList = [] := by decide
  rw [hcomp, List.append_nil, asString_toList]

lemma pyReplace_keep_api (name : String)
    (hni : ¬ List.IsInfix " (local)".toList name.toList) :
    pyReplace (name ++ " (api)") " (local)" "" = name ++ " (api)" := by
  show (replaceAux " (local)".toList "".toList (name ++ " (api)").toList.length
      (name ++ " (api)").toList).asString = name ++ " (api)"
  rw [toList_append]
  rw [replaceAux_passthrough " (local)".toList "".toList "(local)".toList
    (by decide) (by decide) name.toList _ " (api)".toList (by simp) hni
    (Or.inr ⟨"(api)".toList, by decide⟩)]
  have hidx : (name.toList ++ " (api)".toList).length - name.toList.length =
      " (api)".toList.length := by simp
  rw [hidx]
  have hcomp : replaceAux " (local)".toList "".toList " (api)".toList.length
      " (api)".toList = " (api)".toList := by decide
  rw [hcomp, ← toList_append, asString_toList]

lemma pyReplace_strip_api (name : String)
    (hni : ¬ List.IsInfix " (api)".toList name.toList) :
    pyReplace (name ++ " (api)") " (api)" "" = name := by
  show (replaceAux " (api)".toList "".toList (name ++ " (api)").toList.length
      (name ++ " (api)").toList).asString = name
  rw [toList_append]
  rw [replaceAux_passthrough " (api)".toList "".toList "(api)".toList
    (by decide) (by decide) name.toList _ " (api)".toList (by simp) hni
    (Or.inr ⟨"(api)".toList, by decide⟩)]
  have hidx : (name.toList ++ " (api)".toList).length - name.toList.length =
      " (api)".toList.length := by simp
  rw [hidx]
  have hcomp : replaceAux " (api)".toList "".toList " (api)".toList.length
      " (api)".toList = [] := by decide
  rw [hcomp, List.append_nil, asString_toList]

lemma model_name_wellformed (name : String)
    (h1 : ¬ List.IsInfix " (local)".toList name.toList)
    (h2 : ¬ List.IsInfix " (api)".toList name.toList) :
    model_name (name ++ " (local)") = name ∧ model_name (name ++ " (api)") = name := by
  constructor
  · show pyReplace (pyReplace (name ++ " (local)") " (local)" "") " (api)" "" = name
    rw [pyReplace_strip_local name h1, pyReplace_no_occurrence name " (api)" "" h2]
  · show pyReplace (pyReplace (name ++ " (api)") " (local)" "") " (api)" "" = name
    rw [pyReplace_keep_api name h1, pyReplace_strip_api name h2]

lemma pyReplace_empty_toList (s old : String) :
    (pyReplace s old "").toList = replaceAux old.toList [] s.toList.length s.toList := rfl

lemma model_name_toList (s : String) :
    (model_name s).toList =
      replaceAux " (api)".toList []
        ((pyReplace s " (local)" "").toList.length)
        ((pyReplace s " (local)" "").toList) := rfl

lemma model_name_length_le (s : String) :
    (model_name s).toList.length ≤ (pyReplace s " (local)" "").toList.length := by
  rw [model_name_toList]
  exact replaceAux_length_le _ _ _

lemma model_name_mangles (name : String)
    (h : List.IsInfix " (local)".toList name.toList ∨
         List.IsInfix " (api)".toList name.toList) :
    model_name (name ++ " (local)") ≠ name ∧ model_name (name ++ " (api)") ≠ name := by
  have h8 : (" (local)" : String).toList.length = 8 := rfl
  have h6 : (" (api)" : String).toList.length = 6 := rfl
  suffices hlt : (model_name (name ++ " (local)")).toList.length < name.toList.length ∧
      (model_name (name ++ " (api)")).toList.length < name.toList.length by
    constructor
    · intro heq
      rw [heq] at hlt
      exact absurd hlt.1 (lt_irrefl _)
    · intro heq
      rw [heq] at hlt
      exact absurd hlt.2 (lt_irrefl _)
  by_cases hloc : List.IsInfix " (local)".toList name.toList
  · have hge : 8 ≤ name.toList.length := by
      have := hloc.length_le
      rw [h8] at this
      exact this
    constructor
    · have hfirst : (pyReplace (name ++ " (local)") " (local)" "").toList.length ≤
          name.toList.length - 8 := by
        rw [pyReplace_empty_toList, toList_append]
        have hr := replaceAux_removes_two " (local)".toList (by decide) name.toList
          ((name.toList ++ " (local)".toList).length) (by simp) hloc
        rw [h8] at hr
        exact hr
      have hsecond := model_name_length_le (name ++ " (local)")
      omega
    · have hinf : List.IsInfix " (local)".toList (name.toList ++ " (api)".toList) :=
        isInfixAppend _ hloc
      have hfirst : (pyReplace (name ++ " (api)") " (local)" "").toList.length ≤
          (name.toList.length + 6) - 8 := by
        rw [pyReplace_empty_toList, toList_append]
        have hr := replaceAux_removes " (local)".toList (by decide)
          ((name.toList ++ " (api)".toList).length) (name.toList ++ " (api)".toList)
          (le_refl _) hinf
        rw [h8] at hr
        have hlena : (name.toList ++ " (api)".toList).length =
            name.toList.length + 6 := by
          simp [h6]
        omega
      have hsecond := model_name_length_le (name ++ " (api)")
      omega
  · rcases h with hcontra | hapi
    · exact absurd hcontra hloc
    have hge : 6 ≤ name.toList.length := by
      have := hapi.length_le
      rw [h6] at this
      exact this
    constructor
    · have hY := pyReplace_strip_local name hloc
      have hlist := model_name_toList (name ++ " (local)")
      rw [hY] at hlist
      rw [hlist]
      have hr := replaceAux_removes " (api)".toList (by decide)
        name.toList.length name.toList (le_refl _) hapi
      rw [h6] at hr
      omega
    · have hY := pyReplace_keep_api name hloc
      have hlist := model_name_toList (name ++ " (api)")
      rw [hY] at hlist
      rw [hlist, toList_append]
      have hr := replaceAux_removes_two " (api)".toList (by decide) name.toList
        ((name.toList ++ " (api)".toList).length) (by simp) hapi
      rw [h6] at hr
      omega

/-- C10: `respond` parses the model name with `str.replace`, which removes
every occurrence of " (local)" and " (api)", not only a trailing tag.  For a
well-formed option string `name ++ " (local)"` or `name ++ " (api)"` whose
name contains neither substring, the parsed name is exactly `name`; but any
name containing one of the substrings is mangled (the parse of its option
string is not the name). -/
theorem respond_model_name_replace_all :
    (∀ name : String,
        ¬ List.IsInfix " (local)".toList name.toList →
        ¬ List.IsInfix " (api)".toList name.toList →
        model_name (name ++ " (local)") = name ∧
          model_name (name ++ " (api)") = name) ∧
    (∀ name : String,
        (List.IsInfix " (local)".toList name.toList ∨
          List.IsInfix " (api)".toList name.toList) →
        model_name (name ++ " (local)") ≠ name ∧
          model_name (name ++ " (api)") ≠ name) :=
  ⟨model_name_wellformed, model_name_mangles⟩

/-- Witness for C10 at the repository's own model names: the local option
parses back to its model name, and a name containing " (api)" is mangled. -/
theorem respond_model_name_replace_all_witness :
    model_name ("arnir0/Tiny-LLM" ++ " (local)") = "arnir0/Tiny-LLM" ∧
      model_name ("x (api) y" ++ " (local)") ≠ "x (api) y" := by
  constructor
  · exact (respond_model_name_replace_all.1 "arnir0/Tiny-LLM"
      (by decide) (by decide)).1
  · exact (respond_model_name_replace_all.2 "x (api) y"
      (Or.inr (by decide))).1

/-! ### The chat response handler (app.py, `respond`)

`respond` is a generator; its `yield`s become a list of strings.  The global
`pipe` is passed in and returned.  Calls into third-party libraries are
oracles in an `Env` record: each outcome is an `Except` whose error carries
the raised exception's message (every `except` block in `respond` formats
`str(e)` into a user-visible string).  An event trace records each attempted
external call, in order, for the claims about warnings, client creation and
retries. -/

/-- A chat message dict `{"role": ..., "content": ...}`. -/
structure Msg where
  role : String
  content : String
deriving DecidableEq

/-- The transformers model object inside a pipeline. -/
structure PipeModel where
  name_or_path : String
deriving DecidableEq

/-- A transformers text-generation pipeline handle;
`pipe.model.name_or_path` identifies the loaded model (app.py line 241). -/
structure Pipe where
  model : PipeModel
deriving DecidableEq

/-- One attempted external interaction inside `respond`. -/
inductive Event where
  /-- a `log_debug(msg, "WARN")` call. -/
  | warnLog (message : String)
  /-- `from transformers import pipeline; import torch` was attempted. -/
  | importTransformers
  /-- `pipeline("text-generation", model=m)` was attempted. -/
  | loadPipeline (model : String)
  /-- the local pipeline was invoked on the prompt. -/
  | runPipeline (model : String) (prompt : String)
  /-- `InferenceClient(provider="auto", api_key=t)` was attempted. -/
  | createClient (api_key : Option String)
  /-- `client.chat.completions.create(model=m, messages=ms, ...)` was attempted. -/
  | chatRequest (model : String) (messages : List Msg)
deriving DecidableEq

/-- Oracles for the environment and the third-party libraries. -/
structure Env where
  /-- `os.environ.get("HF_TOKEN", None)`. -/
  HF_TOKEN : Option String
  /-- outcome of the transformers/torch import. -/
  importTransformers : Except String Unit
  /-- outcome of `pipeline("text-generation", model=m)`. -/
  loadPipeline : String → Except String Pipe
  /-- outcome of running the pipeline on a prompt:
  `outputs[0]["generated_text"]` on success. -/
  generate : Pipe → String → Except String String
  /-- outcome of constructing `InferenceClient(provider="auto", api_key=t)`. -/
  createClient : Option String → Except String Unit
  /-- outcome of the chat-completion call:
  `completion.choices[0].message.content` on success. -/
  chatComplete : String → List Msg → Except String String

/-- Which arm of the `if is_local:` conditional produced the result. -/
inductive Branch where
  | localModel
  | apiModel
deriving DecidableEq

/-- The observable outcome of one `respond` call. -/
structure RespondResult where
  yields : List String
  pipe : Option Pipe
  events : List Event
  branch : Branch
deriving DecidableEq

/-- app.py lines 221-223: system message, then history, then the user turn. -/
def buildMessages (message : String) (history : List Msg) (system_message : String) :
    List Msg :=
  { role := "system", content := system_message } ::
    (history ++ [{ role := "user", content := message }])

/-- app.py line 249: `prompt = "\n".join([f"{m['role']}: {m['content']}" for m in messages])`. -/
def buildPrompt (messages : List Msg) : String :=
  String.intercalate "\n" (messages.map fun m => m.role ++ ": " ++ m.content)

/-- The tail every user-facing error string carries (app.py lines 272/277/317/323). -/
def errSuffix : String := "\n\nPlease check log.txt for details."

/-- app.py lines 248-266: build the prompt, run inference, strip the prompt
from `generated_text`, strip whitespace, and yield; a raised exception is
caught and yields the Local Model Error string (lines 273-277). -/
def localInfer (env : Env) (newPipe : Option Pipe) (evs : List Event)
    (messages : List Msg) (p : Pipe) : RespondResult :=
  match env.generate p (buildPrompt messages) with
  | .error e =>
    { yields := ["❌ Local Model Error: " ++ e ++ errSuffix]
      pipe := newPipe
      events := evs ++ [.runPipeline p.model.name_or_path (buildPrompt messages)]
      branch := .localModel }
  | .ok g =>
    { yields := [(g.drop (buildPrompt messages).length).trim]
      pipe := newPipe
      events := evs ++ [.runPipeline p.model.name_or_path (buildPrompt messages)]
      branch := .localModel }

/-- app.py line 243: `pipe = pipeline("text-generation", model=model_name)`;
on failure the assignment does not happen, so the cached pipe is unchanged,
and the exception is caught as a Local Model Error. -/
def loadAndInfer (env : Env) (pipe0 : Option Pipe) (messages : List Msg)
    (mn : String) : RespondResult :=
  match env.loadPipeline mn with
  | .error e =>
    { yields := ["❌ Local Model Error: " ++ e ++ errSuffix]
      pipe := pipe0
      events := [.importTransformers, .loadPipeline mn]
      branch := .localModel }
  | .ok p => localInfer env (some p) [.importTransformers, .loadPipeline mn] messages p

/-- app.py lines 232-277, the local path: import transformers (ImportError
yields the Import Error string), then
`if pipe is None or pipe.model.name_or_path != model_name:` load a new
pipeline, else reuse the cached one, then run inference. -/
def localBranch (env : Env) (pipe0 : Option Pipe) (messages : List Msg)
    (mn : String) : RespondResult :=
  match env.importTransformers with
  | .error e =>
    { yields := ["❌ Import Error: " ++ e ++ errSuffix]
      pipe := pipe0
      events := [.importTransformers]
      branch := .localModel }
  | .ok _ =>
    match pipe0 with
    | none => loadAndInfer env pipe0 messages mn
    | some p =>
      if p.model.name_or_path != mn then
        loadAndInfer env pipe0 messages mn
      else
        localInfer env (some p) [.importTransformers] messages p

/-- app.py lines 279-317, the API path: read `HF_TOKEN` (logging a WARN line
when absent), construct the `InferenceClient` with the token, issue one
non-streaming `chat.completions.create` call, and yield
`completion.choices[0].message.content` once; any exception is caught and
yields the API Error string. -/
def apiBranch (env : Env) (pipe0 : Option Pipe) (messages : List Msg)
    (mn : String) : RespondResult :=
  let warnEvents : List Event :=
    match env.HF_TOKEN with
    | some _ => []
    | none => [.warnLog "No HF_TOKEN in environment - API call will likely fail"]
  match env.createClient env.HF_TOKEN with
  | .error e =>
    { yields := ["❌ API Error: " ++ e ++ errSuffix]
      pipe := pipe0
      events := warnEvents ++ [.createClient env.HF_TOKEN]
      branch := .apiModel }
  | .ok _ =>
    match env.chatComplete mn messages with
    | .error e =>
      { yields := ["❌ API Error: " ++ e ++ errSuffix]
        pipe := pipe0
        events := warnEvents ++ [.createClient env.HF_TOKEN, .chatRequest mn messages]
        branch := .apiModel }
    | .ok content =>
      { yields := [content]
        pipe := pipe0
        events := warnEvents ++ [.createClient env.HF_TOKEN, .chatRequest mn messages]
        branch := .apiModel }

/-- app.py lines 189-323, `respond`: build the message list, compute
`is_local` by the suffix check and `model_name` by the double replace, then
take the local or the API path. -/
def respond (env : Env) (pipe0 : Option Pipe) (message : String)
    (history : List Msg) (system_message selected_model : String) :
    RespondResult :=
  let messages := buildMessages message history system_message
  if is_local selected_model then
    localBranch env pipe0 messages (model_name selected_model)
  else
    apiBranch env pipe0 messages (model_name selected_model)

/-- Modelled from the spec (§4): the claimed API-path behavior — iterate a
stream of partial-completion chunks, accumulating and yielding the growing
string after each chunk.  This definition follows the spec's words, for
comparison with `apiBranch`, which follows the code. -/
def specStreamYields (chunks : List String) : List String :=
  (chunks.scanl (fun acc c => acc ++ c) "").tail

/-- A sample oracle environment: no HF_TOKEN, every external call succeeds,
the loaded pipeline carries the requested model name, and the completion
content is "Hello world".  Used to instantiate theorems at concrete inputs. -/
def sampleEnv : Env where
  HF_TOKEN := none
  importTransformers := Except.ok ()
  loadPipeline := fun m => Except.ok ⟨⟨m⟩⟩
  generate := fun _ _ => Except.ok "Hello world"
  createClient := fun _ => Except.ok ()
  chatComplete := fun _ _ => Except.ok "Hello world"

/-- A sample oracle environment where external calls raise. -/
def failEnv : Env where
  HF_TOKEN := none
  importTransformers := Except.error "No module named transformers"
  loadPipeline := fun _ => Except.error "load failed"
  generate := fun _ _ => Except.error "generation failed"
  createClient := fun _ => Except.ok ()
  chatComplete := fun _ _ => Except.error "401 Unauthorized"

lemma localInfer_branch (env : Env) (newPipe : Option Pipe) (evs : List Event)
    (messages : List Msg) (p : Pipe) :
    (localInfer env newPipe evs messages p).branch = Branch.localModel := by
  unfold localInfer
  cases env.generate p (buildPrompt messages) <;> rfl

lemma loadAndInfer_branch (env : Env) (pipe0 : Option Pipe) (messages : List Msg)
    (mn : String) :
    (loadAndInfer env pipe0 messages mn).branch = Branch.localModel := by
  unfold loadAndInfer
  cases env.loadPipeline mn with
  | error e => rfl
  | ok p => exact localInfer_branch env (some p) _ messages p

lemma localBranch_branch (env : Env) (pipe0 : Option Pipe) (messages : List Msg)
    (mn : String) :
    (localBranch env pipe0 messages mn).branch = Branch.localModel := by
  unfold localBranch
  cases env.importTransformers with
  | error e => rfl
  | ok u =>
    cases pipe0 with
    | none => exact loadAndInfer_branch env none messages mn
    | some p =>
      dsimp only
      by_cases h : (p.model.name_or_path != mn) = true
      · rw [if_pos h]
        exact loadAndInfer_branch env (some p) messages mn
      · rw [if_neg h]
        exact localInfer_branch env (some p) _ messages p

lemma apiBranch_branch (env : Env) (pipe0 : Option Pipe) (messages : List Msg)
    (mn : String) :
    (apiBranch env pipe0 messages mn).branch = Branch.apiModel := by
  unfold apiBranch
  cases env.createClient env.HF_TOKEN with
  | error e => rfl
  | ok u =>
    cases env.chatComplete mn messages with
    | error e => rfl
    | ok content => rfl

/-- C5: `respond` takes the local in-process pipeline branch exactly when
`selected_model` ends with "(local)" (Python `selected_model.endswith("(local)")`);
otherwise it takes the remote API branch. -/
theorem respond_local_iff_suffix (env : Env) (pipe0 : Option Pipe)
    (message : String) (history : List Msg) (sm sel : String) :
    (respond env pipe0 message history sm sel).branch = Branch.localModel ↔
      pyEndsWith sel "(local)" = true := by
  unfold respond
  by_cases h : is_local sel = true
  · rw [if_pos h]
    unfold is_local at h
    simp [localBranch_branch, h]
  · rw [if_neg h]
    unfold is_local at h
    simp [apiBranch_branch, h]

lemma localInfer_events (env : Env) (newPipe : Option Pipe) (evs : List Event)
    (messages : List Msg) (p : Pipe) :
    (localInfer env newPipe evs messages p).events =
      evs ++ [Event.runPipeline p.model.name_or_path (buildPrompt messages)] := by
  unfold localInfer
  cases env.generate p (buildPrompt messages) <;> rfl

lemma localInfer_pipe (env : Env) (newPipe : Option Pipe) (evs : List Event)
    (messages : List Msg) (p : Pipe) :
    (localInfer env newPipe evs messages p).pipe = newPipe := by
  unfold localInfer
  cases env.generate p (buildPrompt messages) <;> rfl

lemma loadAndInfer_count_load (env : Env) (pipe0 : Option Pipe)
    (messages : List Msg) (mn : String) :
    (loadAndInfer env pipe0 messages mn).events.count (Event.loadPipeline mn) = 1 := by
  unfold loadAndInfer
  cases env.loadPipeline mn with
  | error e => simp [List.count_cons]
  | ok p =>
    rw [localInfer_events]
    simp [List.count_cons]

/-- C6: the single global slot `pipe` holds at most one pipeline (it is an
`Option`), and on a local-branch request with the transformers import
succeeding, a `pipeline(...)` load is attempted exactly when the slot is
empty or the cached pipeline's model name differs from the requested name;
otherwise the cached pipeline is reused and the slot is unchanged. -/
theorem local_pipeline_cache (env : Env) (pipe0 : Option Pipe)
    (messages : List Msg) (mn : String)
    (himp : env.importTransformers = Except.ok ()) :
    ((localBranch env pipe0 messages mn).events.count (Event.loadPipeline mn) = 1 ↔
        (pipe0 = none ∨ ∃ p, pipe0 = some p ∧ p.model.name_or_path ≠ mn)) ∧
      (∀ p, pipe0 = some p → p.model.name_or_path = mn →
        (localBranch env pipe0 messages mn).pipe = pipe0 ∧
          (localBranch env pipe0 messages mn).events.count (Event.loadPipeline mn) = 0) := by
  unfold localBranch
  rw [himp]
  dsimp only
  cases pipe0 with
  | none =>
    constructor
    · simp [loadAndInfer_count_load]
    · intro p hp
      exact absurd hp (by simp)
  | some p =>
    dsimp only
    by_cases h : p.model.name_or_path = mn
    · have hb : (p.model.name_or_path != mn) = false := by simp [h]
      rw [hb, if_neg (by simp)]
      constructor
      · rw [localInfer_events]
        simp [List.count_cons, h]
      · intro q hq hname
        have hpq : p = q := by
          injection hq
        constructor
        · exact localInfer_pipe env (some p) _ messages p
        · rw [localInfer_events]
          simp [List.count_cons]
    · have hb : (p.model.name_or_path != mn) = true := by simp [h]
      rw [hb, if_pos rfl]
      constructor
      · constructor
        · intro _
          exact Or.inr ⟨p, rfl, h⟩
        · intro _
          exact loadAndInfer_count_load env (some p) messages mn
      · intro q hq hname
        have hpq : p = q := by
          injection hq
        rw [hpq] at h
        exact absurd hname h

/-- Witness for C6: with the repository's local model already cached, the
slot is reused unchanged and no load is attempted. -/
theorem local_pipeline_cache_witness :
    (localBranch sampleEnv (some ⟨⟨"arnir0/Tiny-LLM"⟩⟩) [] "arnir0/Tiny-LLM").pipe =
        some ⟨⟨"arnir0/Tiny-LLM"⟩⟩ ∧
      (localBranch sampleEnv (some ⟨⟨"arnir0/Tiny-LLM"⟩⟩) [] "arnir0/Tiny-LLM").events.count
        (Event.loadPipeline "arnir0/Tiny-LLM") = 0 :=
  (local_pipeline_cache sampleEnv (some ⟨⟨"arnir0/Tiny-LLM"⟩⟩) [] "arnir0/Tiny-LLM"
    rfl).2 ⟨⟨"arnir0/Tiny-LLM"⟩⟩ rfl rfl

/-- Counterexample for C3: with `HF_TOKEN` unset, `respond` on an API model
logs the warning but still creates the `InferenceClient` (with a null key)
and still issues the chat-completion request — it does not short-circuit. -/
theorem missing_token_still_calls_api_counterexample :
    (respond sampleEnv none "hi" [] "sys" "google/gemma-2-2b-it (api)").events =
      [Event.warnLog "No HF_TOKEN in environment - API call will likely fail",
       Event.createClient none,
       Event.chatRequest "google/gemma-2-2b-it"
         [{ role := "system", content := "sys" }, { role := "user", content := "hi" }]] := by
  rfl

/-- C3 (amended): when the API token variable is unset, a remote call in
`respond` logs a warning message, but proceeds anyway: it creates the
inference client with a null key and, if client construction succeeds,
issues the remote request. -/
theorem missing_token_warns_and_proceeds (env : Env) (pipe0 : Option Pipe)
    (message : String) (history : List Msg) (sm sel : String)
    (htok : env.HF_TOKEN = none) (hsel : is_local sel = false) :
    Event.warnLog "No HF_TOKEN in environment - API call will likely fail" ∈
        (respond env pipe0 message history sm sel).events ∧
      Event.createClient none ∈ (respond env pipe0 message history sm sel).events ∧
      (env.createClient none = Except.ok () →
        Event.chatRequest (model_name sel) (buildMessages message history sm) ∈
          (respond env pipe0 message history sm sel).events) := by
  unfold respond
  rw [hsel, if_neg (by simp)]
  unfold apiBranch
  rw [htok]
  dsimp only
  cases hc : env.createClient none with
  | error e =>
    refine ⟨by simp, by simp, ?_⟩
    intro hok
    exact absurd hok (by simp)
  | ok u =>
    cases env.chatComplete (model_name sel) (buildMessages message history sm) with
    | error e => exact ⟨by simp, by simp, fun _ => by simp⟩
    | ok content => exact ⟨by simp, by simp, fun _ => by simp⟩

/-- Witness for C3 (amended) at a concrete call with no token set. -/
theorem missing_token_warns_and_proceeds_witness :
    Event.createClient none ∈
        (respond sampleEnv none "hi" [] "sys" "google/gemma-2-2b-it (api)").events ∧
      Event.chatRequest (model_name "google/gemma-2-2b-it (api)")
          (buildMessages "hi" [] "sys") ∈
        (respond sampleEnv none "hi" [] "sys" "google/gemma-2-2b-it (api)").events := by
  have h := missing_token_warns_and_proceeds sampleEnv none "hi" [] "sys"
    "google/gemma-2-2b-it (api)" rfl rfl
  exact ⟨h.2.1, h.2.2 rfl⟩

/-- Counterexample for C2: the API path does not stream.  Where the spec
claims the growing string is yielded after each chunk (two chunks would give
two yields), the code yields the complete content exactly once. -/
theorem api_no_streaming_counterexample :
    (respond sampleEnv none "hi" [] "sys" "google/gemma-2-2b-it (api)").yields =
        ["Hello world"] ∧
      specStreamYields ["Hello", " world"] = ["Hello", "Hello world"] ∧
      (respond sampleEnv none "hi" [] "sys" "google/gemma-2-2b-it (api)").yields ≠
        specStreamYields ["Hello", " world"] := by
  refine ⟨rfl, rfl, by decide⟩

/-- C2 (amended): on the API branch, `respond` creates a client with the
token from the environment and issues a single non-streaming chat-completion
request; the complete response content is yielded exactly once. -/
theorem api_single_yield (env : Env) (pipe0 : Option Pipe) (message : String)
    (history : List Msg) (sm sel content : String)
    (hsel : is_local sel = false)
    (hok : env.createClient env.HF_TOKEN = Except.ok ())
    (hcc : env.chatComplete (model_name sel) (buildMessages message history sm) =
      Except.ok content) :
    (respond env pipe0 message history sm sel).yields = [content] ∧
      Event.createClient env.HF_TOKEN ∈
        (respond env pipe0 message history sm sel).events ∧
      (respond env pipe0 message history sm sel).events.count
        (Event.chatRequest (model_name sel) (buildMessages message history sm)) = 1 := by
  unfold respond
  rw [hsel, if_neg (by simp)]
  unfold apiBranch
  rw [hok]
  dsimp only
  rw [hcc]
  dsimp only
  cases env.HF_TOKEN with
  | none => exact ⟨rfl, by simp, by simp [List.count_cons]⟩
  | some t => exact ⟨rfl, by simp, by simp [List.count_cons]⟩

/-- Witness for C2 (amended) at a concrete call. -/
theorem api_single_yield_witness :
    (respond sampleEnv none "hi" [] "sys" "HuggingFaceH4/zephyr-7b-beta (api)").yields =
      ["Hello world"] :=
  (api_single_yield sampleEnv none "hi" [] "sys" "HuggingFaceH4/zephyr-7b-beta (api)"
    "Hello world" rfl rfl rfl).1

lemma apiBranch_create_error (env : Env) (pipe0 : Option Pipe)
    (messages : List Msg) (mn e : String)
    (hc : env.createClient env.HF_TOKEN = Except.error e) :
    (apiBranch env pipe0 messages mn).yields = ["❌ API Error: " ++ e ++ errSuffix] := by
  unfold apiBranch
  rw [hc]

lemma apiBranch_request_error (env : Env) (pipe0 : Option Pipe)
    (messages : List Msg) (mn e : String)
    (hok : env.createClient env.HF_TOKEN = Except.ok ())
    (hcc : env.chatComplete mn messages = Except.error e) :
    (apiBranch env pipe0 messages mn).yields = ["❌ API Error: " ++ e ++ errSuffix] := by
  unfold apiBranch
  rw [hok]
  dsimp only
  rw [hcc]

lemma localBranch_import_error (env : Env) (pipe0 : Option Pipe)
    (messages : List Msg) (mn e : String)
    (h : env.importTransformers = Except.error e) :
    (localBranch env pipe0 messages mn).yields =
      ["❌ Import Error: " ++ e ++ errSuffix] := by
  unfold localBranch
  rw [h]

lemma loadAndInfer_load_error (env : Env) (pipe0 : Option Pipe)
    (messages : List Msg) (mn e : String)
    (h : env.loadPipeline mn = Except.error e) :
    (loadAndInfer env pipe0 messages mn).yields =
      ["❌ Local Model Error: " ++ e ++ errSuffix] := by
  unfold loadAndInfer
  rw [h]

lemma localInfer_generate_error (env : Env) (newPipe : Option Pipe)
    (evs : List Event) (messages : List Msg) (p : Pipe) (e : String)
    (h : env.generate p (buildPrompt messages) = Except.error e) :
    (localInfer env newPipe evs messages p).yields =
      ["❌ Local Model Error: " ++ e ++ errSuffix] := by
  unfold localInfer
  rw [h]

lemma localInfer_single (env : Env) (newPipe : Option Pipe) (evs : List Event)
    (messages : List Msg) (p : Pipe) :
    ∃ s, (localInfer env newPipe evs messages p).yields = [s] := by
  unfold localInfer
  cases env.generate p (buildPrompt messages) with
  | error e => exact ⟨_, rfl⟩
  | ok g => exact ⟨_, rfl⟩

lemma loadAndInfer_single (env : Env) (pipe0 : Option Pipe) (messages : List Msg)
    (mn : String) :
    ∃ s, (loadAndInfer env pipe0 messages mn).yields = [s] := by
  unfold loadAndInfer
  cases env.loadPipeline mn with
  | error e => exact ⟨_, rfl⟩
  | ok p => exact localInfer_single env (some p) _ messages p

lemma localBranch_single (env : Env) (pipe0 : Option Pipe) (messages : List Msg)
    (mn : String) :
    ∃ s, (localBranch env pipe0 messages mn).yields = [s] := by
  unfold localBranch
  cases env.importTransformers with
  | error e => exact ⟨_, rfl⟩
  | ok u =>
    cases pipe0 with
    | none => exact loadAndInfer_single env none messages mn
    | some p =>
      dsimp only
      by_cases h : (p.model.name_or_path != mn) = true
      · rw [if_pos h]
        exact loadAndInfer_single env (some p) messages mn
      · rw [if_neg h]
        exact localInfer_single env (some p) _ messages p

lemma apiBranch_single (env : Env) (pipe0 : Option Pipe) (messages : List Msg)
    (mn : String) :
    ∃ s, (apiBranch env pipe0 messages mn).yields = [s] := by
  unfold apiBranch
  cases env.createClient env.HF_TOKEN with
  | error e => exact ⟨_, rfl⟩
  | ok u =>
    dsimp only
    cases env.chatComplete mn messages with
    | error e => exact ⟨_, rfl⟩
    | ok content => exact ⟨_, rfl⟩

lemma localBranch_nodup (env : Env) (pipe0 : Option Pipe) (messages : List Msg)
    (mn : String) : (localBranch env pipe0 messages mn).events.Nodup := by
  unfold localBranch loadAndInfer
  cases env.importTransformers with
  | error e => simp
  | ok u =>
    cases pipe0 with
    | none =>
      dsimp only
      cases env.loadPipeline mn with
      | error e => simp
      | ok p =>
        rw [localInfer_events]
        simp
    | some p =>
      dsimp only
      by_cases h : (p.model.name_or_path != mn) = true
      · rw [if_pos h]
        cases env.loadPipeline mn with
        | error e => simp
        | ok q =>
          rw [localInfer_events]
          simp
      · rw [if_neg h]
        rw [localInfer_events]
        simp

lemma apiBranch_nodup (env : Env) (pipe0 : Option Pipe) (messages : List Msg)
    (mn : String) : (apiBranch env pipe0 messages mn).events.Nodup := by
  unfold apiBranch
  cases htok : env.HF_TOKEN with
  | none =>
    dsimp only
    cases env.createClient none with
    | error e => simp
    | ok u =>
      cases env.chatComplete mn messages with
      | error e => simp
      | ok content => simp
  | some t =>
    dsimp only
    cases env.createClient (some t) with
    | error e => simp
    | ok u =>
      cases env.chatComplete mn messages with
      | error e => simp
      | ok content => simp

/-- C4: `respond` never propagates an exception and never retries: it always
yields exactly one string, attempts each external operation at most once, and
every failure outcome of an attempted operation (import failure, pipeline
load failure, inference failure, client-construction failure, remote request
failure) is converted into the corresponding yielded string prefixed with
the "❌" error marker. -/
theorem respond_error_handling (env : Env) (pipe0 : Option Pipe)
    (message : String) (history : List Msg) (sm sel : String) :
    (∃ s, (respond env pipe0 message history sm sel).yields = [s]) ∧
      (∀ ev : Event, (respond env pipe0 message history sm sel).events.count ev ≤ 1) ∧
      (∀ e, is_local sel = true → env.importTransformers = Except.error e →
        (respond env pipe0 message history sm sel).yields =
          ["❌ Import Error: " ++ e ++ errSuffix]) ∧
      (∀ e, is_local sel = true → env.importTransformers = Except.ok () →
        (pipe0 = none ∨ ∃ q, pipe0 = some q ∧ q.model.name_or_path ≠ model_name sel) →
        env.loadPipeline (model_name sel) = Except.error e →
        (respond env pipe0 message history sm sel).yields =
          ["❌ Local Model Error: " ++ e ++ errSuffix]) ∧
      (∀ e p, is_local sel = true → env.importTransformers = Except.ok () →
        (pipe0 = none ∨ ∃ q, pipe0 = some q ∧ q.model.name_or_path ≠ model_name sel) →
        env.loadPipeline (model_name sel) = Except.ok p →
        env.generate p (buildPrompt (buildMessages message history sm)) = Except.error e →
        (respond env pipe0 message history sm sel).yields =
          ["❌ Local Model Error: " ++ e ++ errSuffix]) ∧
      (∀ e p, is_local sel = true → env.importTransformers = Except.ok () →
        pipe0 = some p → p.model.name_or_path = model_name sel →
        env.generate p (buildPrompt (buildMessages message history sm)) = Except.error e →
        (respond env pipe0 message history sm sel).yields =
          ["❌ Local Model Error: " ++ e ++ errSuffix]) ∧
      (∀ e, is_local sel = false → env.createClient env.HF_TOKEN = Except.error e →
        (respond env pipe0 message history sm sel).yields =
          ["❌ API Error: " ++ e ++ errSuffix]) ∧
      (∀ e, is_local sel = false → env.createClient env.HF_TOKEN = Except.ok () →
        env.chatComplete (model_name sel) (buildMessages message history sm) =
          Except.error e →
        (respond env pipe0 message history sm sel).yields =
          ["❌ API Error: " ++ e ++ errSuffix]) := by
  refine ⟨?single, ?noretry, ?imp, ?load, ?genload, ?genreuse, ?create, ?request⟩
  case single =>
    unfold respond
    by_cases h : is_local sel = true
    · rw [if_pos h]
      exact localBranch_single env pipe0 _ _
    · rw [if_neg h]
      exact apiBranch_single env pipe0 _ _
  case noretry =>
    intro ev
    unfold respond
    by_cases h : is_local sel = true
    · rw [if_pos h]
      exact List.nodup_iff_count_le_one.mp (localBranch_nodup env pipe0 _ _) ev
    · rw [if_neg h]
      exact List.nodup_iff_count_le_one.mp (apiBranch_nodup env pipe0 _ _) ev
  case imp =>
    intro e hl himp
    unfold respond
    rw [if_pos hl]
    exact localBranch_import_error env pipe0 _ _ e himp
  case load =>
    intro e hl himp hcond hload
    unfold respond
    rw [if_pos hl]
    unfold localBranch
    rw [himp]
    dsimp only
    cases pipe0 with
    | none => exact loadAndInfer_load_error env none _ _ e hload
    | some q =>
      dsimp only
      rcases hcond with hn | ⟨q2, hq2, hne⟩
      · exact absurd hn (by simp)
      · have hqq : q = q2 := by
          injection hq2
        have hb : (q.model.name_or_path != model_name sel) = true := by
          rw [hqq]
          simp [hne]
        rw [if_pos hb]
        exact loadAndInfer_load_error env (some q) _ _ e hload
  case genload =>
    intro e p hl himp hcond hload hgen
    unfold respond
    rw [if_pos hl]
    unfold localBranch
    rw [himp]
    dsimp only
    have hrest : (loadAndInfer env pipe0 (buildMessages message history sm)
        (model_name sel)).yields = ["❌ Local Model Error: " ++ e ++ errSuffix] := by
      unfold loadAndInfer
      rw [hload]
      dsimp only
      exact localInfer_generate_error env (some p) _ _ p e hgen
    cases pipe0 with
    | none => exact hrest
    | some q =>
      dsimp only
      rcases hcond with hn | ⟨q2, hq2, hne⟩
      · exact absurd hn (by simp)
      · have hqq : q = q2 := by
          injection hq2
        have hb : (q.model.name_or_path != model_name sel) = true := by
          rw [hqq]
          simp [hne]
        rw [if_pos hb]
        exact hrest
  case genreuse =>
    intro e p hl himp hp0 hname hgen
    unfold respond
    rw [if_pos hl]
    unfold localBranch
    rw [himp]
    subst hp0
    dsimp only
    have hb : (p.model.name_or_path != model_name sel) = false := by
      simp [hname]
    rw [hb, if_neg (by simp)]
    exact localInfer_generate_error env (some p) _ _ p e hgen
  case create =>
    intro e hl hc
    unfold respond
    rw [hl, if_neg (by simp)]
    exact apiBranch_create_error env pipe0 _ _ e hc
  case request =>
    intro e hl hok hcc
    unfold respond
    rw [hl, if_neg (by simp)]
    exact apiBranch_request_error env pipe0 _ _ e hok hcc

/-- Witness for C4: a failing remote request is converted into a single
API Error yield. -/
theorem respond_error_handling_witness :
    (respond failEnv none "hi" [] "sys" "google/gemma-2-2b-it (api)").yields =
      ["❌ API Error: " ++ "401 Unauthorized" ++ errSuffix] :=
  (respond_error_handling failEnv none "hi" [] "sys"
    "google/gemma-2-2b-it (api)").2.2.2.2.2.2.2 "401 Unauthorized" rfl rfl rfl

/-! ### Entry point port (app.py `__main__`, deploy.py `run_local`)

app.py line 374 launches with a hardcoded `server_port=8012` and never reads
the environment; deploy.py's `run_local` sets `PORT=8080` in the child
process environment before running app.py, and all three cloud deploy
commands target port 8080. -/

/-- deploy.py line 18: `LOCAL_PORT = 8080`. -/
def LOCAL_PORT : Nat := 8080

/-- deploy.py lines 72-73 (`run_local`):
`env = os.environ.copy(); env["PORT"] = str(LOCAL_PORT)`. -/
def run_local_env (env : String → Option String) : String → Option String :=
  fun k => if k = "PORT" then some (toString LOCAL_PORT) else env k

/-- app.py line 374:
`demo.launch(server_name="0.0.0.0", server_port=8012, share=True)`.  The
entry point never consults the environment, so the launched port is the
constant 8012 whatever the environment holds (the parameter records that the
process environment is available but unused). -/
def launch_server_port (_env : String → Option String) : Nat := 8012

/-- C7 evidence: running app.py under deploy.py's `run_local` environment
(which sets PORT to 8080) still launches the server on 8012, not on the
PORT value. -/
theorem port_env_var_ignored :
    (run_local_env (fun _ => none)) "PORT" = some (toString LOCAL_PORT) ∧
      launch_server_port (run_local_env (fun _ => none)) = 8012 ∧
      launch_server_port (run_local_env (fun _ => none)) ≠ LOCAL_PORT :=
  ⟨rfl, rfl, by decide⟩

/-! ### Deployment menu (deploy.py `main`) -/

/-- The action selected by deploy.py's numbered menu. -/
inductive DeployAction where
  /-- `deploy_gcp()`: `gcloud run deploy` to Cloud Run. -/
  | deployGcp
  /-- `deploy_azure()`: `az containerapp up` to Container Apps. -/
  | deployAzure
  /-- `deploy_aws()`: the AWS App Runner (manual console) path. -/
  | deployAws
  /-- choice 4: skip deployment, image already pushed. -/
  | skipDeploy
  /-- `run_local()`: run app.py locally. -/
  | runLocalApp
  /-- `sys.exit(code)` after "Invalid choice.". -/
  | invalidExit (code : Nat)
deriving DecidableEq

/-- deploy.py lines 181-194: dispatch on the entered choice string. -/
def dispatch (choice : String) : DeployAction :=
  if choice = "1" then .deployGcp
  else if choice = "2" then .deployAzure
  else if choice = "3" then .deployAws
  else if choice = "4" then .skipDeploy
  else if choice = "5" then .runLocalApp
  else .invalidExit 1

/-- C8: the numbered menu maps 1..5 to GCP Cloud Run, Azure Container Apps,
AWS App Runner, skip, and local run respectively, and every other choice is
rejected as invalid with exit code 1. -/
theorem deploy_menu_mapping :
    dispatch "1" = DeployAction.deployGcp ∧
      dispatch "2" = DeployAction.deployAzure ∧
      dispatch "3" = DeployAction.deployAws ∧
      dispatch "4" = DeployAction.skipDeploy ∧
      dispatch "5" = DeployAction.runLocalApp ∧
      ∀ s : String, s ∉ (["1", "2", "3", "4", "5"] : List String) →
        dispatch s = DeployAction.invalidExit 1 := by
  refine ⟨rfl, rfl, rfl, rfl, rfl, ?_⟩
  intro s hs
  simp only [List.mem_cons, List.mem_singleton, not_or] at hs
  obtain ⟨h1, h2, h3, h4, h5⟩ := hs
  simp [dispatch, h1, h2, h3, h4, h5]

/-- Witness for C8: an out-of-range choice is rejected with exit code 1. -/
theorem deploy_menu_mapping_witness :
    dispatch "7" = DeployAction.invalidExit 1 :=
  deploy_menu_mapping.2.2.2.2.2 "7" (by decide)

end SmartConfidant
